import Mathlib

/-!
Verification development for the eventsource-aws repository.

The repository consists of an SQS consumer pipeline (`queue` package:
`Subscribe`, `receiveLoop`, `handleMessage`, `handleLoop`, `deleteLoop`,
`Subscription.Close`) and an S3 replay path (`s3firehose` package:
`handleObject`, `Replay`).  The Go loops are embedded as executable Lean
functions over explicit event lists: each channel/select interaction of a
loop body becomes one constructor of an event type, and the loop becomes a
recursive function consuming the event list, returning the observable
trace (messages forwarded, handler invocations, delete-batch API calls)
together with the loop's termination state.
-/

namespace ESAws

variable {E : Type}

/-- Numeric value of a standard base64 alphabet character
(Go `encoding/base64` StdEncoding alphabet `A-Za-z0-9+/`). -/
def b64Val (c : Char) : Option Nat :=
  if 'A' ≤ c ∧ c ≤ 'Z' then some (c.toNat - 'A'.toNat)
  else if 'a' ≤ c ∧ c ≤ 'z' then some (c.toNat - 'a'.toNat + 26)
  else if '0' ≤ c ∧ c ≤ '9' then some (c.toNat - '0'.toNat + 52)
  else if c = '+' then some 62
  else if c = '/' then some 63
  else none

/-- Decode one 4-character base64 group into 1..3 bytes, honouring the
`=` padding rules of Go `base64.StdEncoding`. -/
def b64Group (a b c d : Char) : Option (List Nat) :=
  match b64Val a, b64Val b with
  | some va, some vb =>
    if c = '=' then
      if d = '=' then some [va * 4 + vb / 16] else none
    else
      match b64Val c with
      | some vc =>
        if d = '=' then some [va * 4 + vb / 16, (vb % 16) * 16 + vc / 4]
        else
          match b64Val d with
          | some vd => some [va * 4 + vb / 16, (vb % 16) * 16 + vc / 4, (vc % 4) * 64 + vd]
          | none => none
      | none => none
  | _, _ => none

/-- Decode a list of characters as strict (padded) base64: the length must
be a multiple of 4 and `=` padding may only occur in the final group. -/
def b64DecodeChars : List Char → Option (List Nat)
  | [] => some []
  | a :: b :: c :: d :: rest =>
    match b64Group a b c d with
    | none => none
    | some bytes =>
      match rest with
      | [] => some bytes
      | _ :: _ =>
        if c = '=' ∨ d = '=' then none
        else
          match b64DecodeChars rest with
          | none => none
          | some bs => some (bytes ++ bs)
  | _ => none

/-- Model of Go `base64.StdEncoding.DecodeString`: `none` models a decode
error, `some bytes` a successful decode. -/
def base64Decode (s : String) : Option (List Nat) :=
  b64DecodeChars s.data

/-- Model of `*sqs.Message`: the Go struct carries `*string` body and
receipt handle, both of which may be nil. -/
structure Msg where
  body : Option String
  receiptHandle : Option String
deriving DecidableEq

/-- The Go error values observable from the pipeline loops:
`contextCanceled` models `ctx.Err()` after cancellation, the other two
model the errors constructed in `handleMessage`. -/
inductive GoError
  | contextCanceled
  | unmarshalFailed (body : String)
  | handlerFailed (e : String)
deriving DecidableEq

/-- Termination state of a loop run: `running` when the event list was
exhausted with the loop still in its `for` cycle, `returned e` when the
loop executed `return` with the given error value (`none` = nil error). -/
inductive RunState
  | running
  | returned (e : Option GoError)
deriving DecidableEq

/-- Model of `eventsource.Serializer.UnmarshalEvent` restricted to what the
pipeline uses: bytes in, an event or an error out. -/
abbrev Serializer (E : Type) := List Nat → Except String E

/-- Model of the application `HandlerFunc`: `none` = success, `some e` =
handler error. -/
abbrev Handler (E : Type) := E → Option String

/-- Observable outcome of one `handleMessage` call: how many times the
serializer was invoked, the events dispatched to the application handler,
and the returned Go error (`none` = nil). -/
structure HandleMsg (E : Type) where
  serializerCalls : Nat
  dispatched : List E
  result : Option GoError
deriving DecidableEq

/-- Embedding of `queue.handleMessage` (queue.go lines 134-151): nil
message or nil body returns nil; a base64 decode failure is logged and
returns nil; an unmarshal failure returns a non-nil error carrying the
body; otherwise the handler is invoked and its error (possibly nil) is
returned. -/
def handleMessage (ser : Serializer E) (fn : Handler E) (m : Option Msg) : HandleMsg E :=
  match m with
  | none => ⟨0, [], none⟩
  | some msg =>
    match msg.body with
    | none => ⟨0, [], none⟩
    | some body =>
      match base64Decode body with
      | none => ⟨0, [], none⟩
      | some data =>
        match ser data with
        | Except.error _ => ⟨1, [], some (GoError.unmarshalFailed body)⟩
        | Except.ok ev =>
          match fn ev with
          | none => ⟨1, [ev], none⟩
          | some s => ⟨1, [ev], some (GoError.handlerFailed s)⟩

/-- One scheduler event observed by `handleLoop`'s `select`: either the
context is cancelled, or a message arrives on the `received` channel
(`cancelBeforeSend` records whether cancellation wins the race at the
subsequent forward-to-`completed` select). -/
inductive HEvent
  | cancel
  | recv (m : Option Msg) (cancelBeforeSend : Bool)
deriving DecidableEq

/-- Observable trace of a `handleLoop` run: the messages forwarded to the
`completed` channel, the events dispatched to the handler, and the loop's
termination state. -/
structure HandleRun (E : Type) where
  completed : List (Option Msg)
  dispatched : List E
  state : RunState
deriving DecidableEq

/-- Embedding of `queue.handleLoop` (queue.go lines 153-172) as a function
of the sequence of select outcomes. -/
def handleLoopRun (ser : Serializer E) (fn : Handler E) : List HEvent → HandleRun E
  | [] => ⟨[], [], RunState.running⟩
  | HEvent.cancel :: _ => ⟨[], [], RunState.returned (some GoError.contextCanceled)⟩
  | HEvent.recv m cb :: rest =>
    match (handleMessage ser fn m).result with
    | some e => ⟨[], (handleMessage ser fn m).dispatched, RunState.returned (some e)⟩
    | none =>
      if cb then
        ⟨[], (handleMessage ser fn m).dispatched, RunState.returned (some GoError.contextCanceled)⟩
      else
        ⟨m :: (handleLoopRun ser fn rest).completed,
         (handleMessage ser fn m).dispatched ++ (handleLoopRun ser fn rest).dispatched,
         (handleLoopRun ser fn rest).state⟩

/-- A concrete serializer that always succeeds, used to instantiate
theorems at concrete inputs. -/
def serOk : Serializer Nat := fun _ => Except.ok 0

/-- A concrete serializer that always fails. -/
def serBad : Serializer Nat := fun _ => Except.error "bad"

/-- A concrete application handler that always succeeds. -/
def fnOk : Handler Nat := fun _ => none

/-- One iteration of `receiveLoop` as seen from its environment: either
`ReceiveMessageWithContext` succeeds with a list of messages (`cancelAt i`
means cancellation wins the select before forwarding message `i`, or at
the trailing non-blocking context check when `i` is the list length), or
it fails (`cancelled` tells whether cancellation fires during the 15s
backoff wait). -/
inductive RStep
  | ok (msgs : List (Option Msg)) (cancelAt : Option Nat)
  | err (cancelled : Bool)
deriving DecidableEq

/-- Observable trace of a `receiveLoop` run: messages pushed onto the
`received` channel and the loop's termination state. -/
structure RRun where
  sent : List (Option Msg)
  state : RunState
deriving DecidableEq

/-- Embedding of `queue.receiveLoop` (queue.go lines 97-132): every
`return` in the source returns `ctx.Err()`; a receive error without
cancellation backs off and retries. -/
def receiveLoopRun : List RStep → RRun
  | [] => ⟨[], RunState.running⟩
  | RStep.err c :: rest =>
    if c then ⟨[], RunState.returned (some GoError.contextCanceled)⟩
    else receiveLoopRun rest
  | RStep.ok msgs cancelAt :: rest =>
    match cancelAt with
    | some i => ⟨msgs.take i, RunState.returned (some GoError.contextCanceled)⟩
    | none =>
      ⟨msgs ++ (receiveLoopRun rest).sent, (receiveLoopRun rest).state⟩

/-- Model of `errgroup.Group.Wait`: the first non-nil error returned by
the goroutines, in completion order (`g.errOnce` stores only the first
one). -/
def errgroupWait (results : List (Option GoError)) : Option GoError :=
  results.findSome? fun r => r

/-- Embedding of `Subscription.Close` (queue.go lines 23-26): cancel the
shared context, then return `group.Wait()` over the three stage results. -/
def subscriptionClose (results : List (Option GoError)) : Option GoError :=
  errgroupWait results

/-- The Go error value a loop run's termination state corresponds to
(`none` when the loop has not returned). -/
def stageReturn (s : RunState) : Option GoError :=
  match s with
  | RunState.running => none
  | RunState.returned e => e

/-- Model of `*sqs.DeleteMessageBatchRequestEntry`: the Go code sets
`Id: strconv.Itoa(len(input.Entries))` (the entry's 0-based position in
the current batch, modelled as the number itself) and the message's
receipt handle. -/
structure Entry where
  id : Nat
  receiptHandle : Option String
deriving DecidableEq

/-- Outcome of one `DeleteMessageBatchWithContext` attempt as seen by the
retry loop in `deleteMessages`: the call succeeds; it fails and the 15s
pause elapses (retry); or it fails and cancellation fires during the pause
(the closure returns without clearing the batch). -/
inductive FlushOutcome
  | success
  | failRetry
  | failCancel
deriving DecidableEq

/-- Result of one `deleteMessages` invocation: the batch contents passed
to each delete API call, the batch left in `input.Entries` afterwards, and
the unconsumed attempt outcomes. -/
structure FlushResult where
  calls : List (List Entry)
  entries : List Entry
  env : List FlushOutcome
deriving DecidableEq

/-- The `for attempt := 1; attempt <= 3` retry loop inside
`deleteMessages` (queue.go lines 184-197).  Returns the API calls made,
whether control reached the `input.Entries = nil` line (false exactly when
cancellation fired during a pause and the closure returned early), and the
remaining outcomes.  Exhausted outcomes default to `success`. -/
def flushGo (entries : List Entry) : Nat → List FlushOutcome →
    List (List Entry) × Bool × List FlushOutcome
  | 0, env => ([], true, env)
  | Nat.succ fuel, env =>
    match env with
    | FlushOutcome.failRetry :: env' =>
      let r := flushGo entries fuel env'
      (entries :: r.1, r.2.1, r.2.2)
    | FlushOutcome.failCancel :: env' => ([entries], false, env')
    | FlushOutcome.success :: env' => ([entries], true, env')
    | [] => ([entries], true, [])

/-- Embedding of the `deleteMessages` closure in `queue.deleteLoop`
(queue.go lines 179-200): a no-op on an empty batch, otherwise up to 3
delete attempts, after which `input.Entries` is reset to nil unless the
closure returned early because cancellation fired during a retry pause. -/
def deleteMessages (entries : List Entry) (env : List FlushOutcome) : FlushResult :=
  if entries.isEmpty then ⟨[], entries, env⟩
  else
    let r := flushGo entries 3 env
    ⟨r.1, if r.2.1 then [] else entries, r.2.2⟩

/-- One iteration of `deleteLoop`'s `select` (queue.go lines 206-224):
the ticker fires, a completed message arrives, or the context is
cancelled. -/
inductive DEvent
  | tick
  | completed (rh : Option String)
  | cancel
deriving DecidableEq

/-- Observable outcome of one `deleteLoop` iteration. -/
structure DStep where
  calls : List (List Entry)
  entries : List Entry
  env : List FlushOutcome
  stop : Bool
deriving DecidableEq

/-- One iteration of `deleteLoop`: on cancellation the loop returns
`ctx.Err()` and the deferred `deleteMessages` runs; on a tick the batch is
flushed; on a completed message an entry with id = current batch length is
appended; after the tick and completed cases, a batch of exactly 10
entries is flushed immediately. -/
def deleteStep (entries : List Entry) (env : List FlushOutcome) : DEvent → DStep
  | DEvent.cancel =>
    let r := deleteMessages entries env
    ⟨r.calls, r.entries, r.env, true⟩
  | DEvent.tick =>
    let r := deleteMessages entries env
    if r.entries.length = 10 then
      let r2 := deleteMessages r.entries r.env
      ⟨r.calls ++ r2.calls, r2.entries, r2.env, false⟩
    else ⟨r.calls, r.entries, r.env, false⟩
  | DEvent.completed rh =>
    let es := entries ++ [⟨entries.length, rh⟩]
    if es.length = 10 then
      let r := deleteMessages es env
      ⟨r.calls, r.entries, r.env, false⟩
    else ⟨[], es, env, false⟩

/-- Observable trace of a `deleteLoop` run. -/
structure DRun where
  calls : List (List Entry)
  entries : List Entry
  env : List FlushOutcome
  state : RunState
deriving DecidableEq

/-- Embedding of `queue.deleteLoop` (queue.go lines 174-225) as a function
of the sequence of select outcomes and delete-attempt outcomes. -/
def deleteLoopRun : List Entry → List FlushOutcome → List DEvent → DRun
  | entries, env, [] => ⟨[], entries, env, RunState.running⟩
  | entries, env, e :: rest =>
    let s := deleteStep entries env e
    if s.stop then ⟨s.calls, s.entries, s.env, RunState.returned (some GoError.contextCanceled)⟩
    else
      ⟨s.calls ++ (deleteLoopRun s.entries s.env rest).calls,
       (deleteLoopRun s.entries s.env rest).entries,
       (deleteLoopRun s.entries s.env rest).env,
       (deleteLoopRun s.entries s.env rest).state⟩

/-- The batch built by appending receipt handles starting at position
`n`: entry ids are consecutive positions. -/
def mkEntriesFrom : Nat → List (Option String) → List Entry
  | _, [] => []
  | n, rh :: rest => ⟨n, rh⟩ :: mkEntriesFrom (n + 1) rest

/-- Whether the retry loop, given at most `fuel` attempts, terminates by
cancellation during a pause (the only exit that skips the batch reset). -/
def cancelsWithin : Nat → List FlushOutcome → Bool
  | 0, _ => false
  | Nat.succ _, [] => false
  | Nat.succ n, FlushOutcome.failRetry :: env' => cancelsWithin n env'
  | Nat.succ _, FlushOutcome.failCancel :: _ => true
  | Nat.succ _, FlushOutcome.success :: _ => false

/-- Replay error values mirroring the error returns of the s3firehose
package: listing failure, object read failure, per-line base64 failure
(carrying the 1-based line number), unmarshal failure, handler failure,
and the per-object wrapper added by `Replay`. -/
inductive ReplayErr
  | listFailed
  | getFailed (key : String)
  | b64Failed (line : Nat)
  | unmarshalFailed (e : String)
  | handlerFailed (e : String)
  | objFailed (key : String) (e : ReplayErr)
deriving DecidableEq

/-- Model of `GetObjectWithContext` over the archive: a key to
list-of-scanner-lines association; a missing key models a read error. -/
def lookupLines : List (String × List String) → String → Option (List String)
  | [], _ => none
  | (k, ls) :: rest, key => if k = key then some ls else lookupLines rest key

/-- The scanner loop of `s3firehose.handleObject` (lines 117-132 of the
source): per line, base64 decode, unmarshal, dispatch to the handler; the
first failure aborts with its error; `n` is the 1-based line counter. -/
def scanLines (ser : Serializer E) (fn : Handler E) :
    Nat → List String → List E × Option ReplayErr
  | _, [] => ([], none)
  | n, line :: rest =>
    match base64Decode line with
    | none => ([], some (ReplayErr.b64Failed n))
    | some data =>
      match ser data with
      | Except.error e => ([], some (ReplayErr.unmarshalFailed e))
      | Except.ok ev =>
        match fn ev with
        | some s => ([ev], some (ReplayErr.handlerFailed s))
        | none =>
          (ev :: (scanLines ser fn (n + 1) rest).1, (scanLines ser fn (n + 1) rest).2)

/-- Embedding of `s3firehose.handleObject`: fetch the object (a read
failure aborts), then scan its lines from line 1. -/
def handleObject (ser : Serializer E) (fn : Handler E)
    (objects : List (String × List String)) (key : String) : List E × Option ReplayErr :=
  match lookupLines objects key with
  | none => ([], some (ReplayErr.getFailed key))
  | some lines => scanLines ser fn 1 lines

/-- The per-page object loop of `s3firehose.Replay`: objects are processed
in listing order and the first `handleObject` failure aborts, wrapped with
the failing key. -/
def replayKeys (ser : Serializer E) (fn : Handler E)
    (objects : List (String × List String)) : List String → List E × Option ReplayErr
  | [] => ([], none)
  | k :: rest =>
    match handleObject ser fn objects k with
    | (evs, some e) => (evs, some (ReplayErr.objFailed k e))
    | (evs, none) =>
      (evs ++ (replayKeys ser fn objects rest).1, (replayKeys ser fn objects rest).2)

/-- One `ListObjectsV2WithContext` response: an error, or a page of keys
with `more` modelling a non-nil continuation token. -/
inductive Page
  | err
  | ok (keys : List String) (more : Bool)
deriving DecidableEq

/-- Embedding of `s3firehose.Replay`: paginate through listing responses,
processing each page's objects in order; a listing error or any object
failure aborts immediately. -/
def Replay (ser : Serializer E) (fn : Handler E)
    (objects : List (String × List String)) : List Page → List E × Option ReplayErr
  | [] => ([], none)
  | Page.err :: _ => ([], some ReplayErr.listFailed)
  | Page.ok keys more :: rest =>
    match replayKeys ser fn objects keys with
    | (evs, some e) => (evs, some e)
    | (evs, none) =>
      if more then (evs ++ (Replay ser fn objects rest).1, (Replay ser fn objects rest).2)
      else (evs, none)

/-- Spec-side decoded event of one archive line (base64 decode then
unmarshal), written from the specification's words. -/
def specLineEvent (ser : Serializer E) (line : String) : Option E :=
  (base64Decode line).bind fun data => (ser data).toOption

/-- Spec-side decoded events of one archive object, in line order. -/
def specObjectEvents (ser : Serializer E) (objects : List (String × List String))
    (key : String) : Option (List E) :=
  (lookupLines objects key).bind fun lines => lines.mapM (specLineEvent ser)

/-- Spec-side decoded events of the whole replay, in object-list order
then line order, defined only when every listing, read and decode
succeeds. -/
def specReplayEvents (ser : Serializer E) (objects : List (String × List String)) :
    List Page → Option (List E)
  | [] => some []
  | Page.err :: _ => none
  | Page.ok keys more :: rest =>
    (keys.mapM (specObjectEvents ser objects)).bind fun evss =>
      if more then
        (specReplayEvents ser objects rest).bind fun evs2 => some (evss.flatten ++ evs2)
      else some evss.flatten

/-- A concrete serializer over byte lists that returns the bytes
unchanged, used to instantiate the replay theorem. -/
def serId : Serializer (List Nat) := fun data => Except.ok data

/-- A concrete always-succeeding handler over byte lists. -/
def fnOkL : Handler (List Nat) := fun _ => none

/-- Any non-nil result of `handleMessage` is an unmarshal error or a
handler error. -/
lemma handleMessage_result_cases (ser : Serializer E) (fn : Handler E) (m : Option Msg)
    (e : GoError) (h : (handleMessage ser fn m).result = some e) :
    (∃ b, e = GoError.unmarshalFailed b) ∨ ∃ s, e = GoError.handlerFailed s := by
  rcases m with _ | ⟨mb, mr⟩
  · simp [handleMessage] at h
  · rcases mb with _ | body
    · simp [handleMessage] at h
    · cases hd : base64Decode body with
      | none => simp [handleMessage, hd] at h
      | some data =>
        cases hs : ser data with
        | error msg2 =>
          simp [handleMessage, hd, hs] at h
          exact Or.inl ⟨body, h.symm⟩
        | ok ev =>
          cases hf : fn ev with
          | none => simp [handleMessage, hd, hs, hf] at h
          | some s =>
            simp [handleMessage, hd, hs, hf] at h
            exact Or.inr ⟨s, h.symm⟩

/-- C1 (amended): a message whose body fails base64 decoding is dropped by
`handleMessage` without touching the serializer or the handler and without
an error, and `handleLoop` then forwards the message to the `completed`
channel and keeps running on the remaining events. -/
theorem c1_bad_base64_dropped_yet_forwarded (ser : Serializer E) (fn : Handler E)
    (body : String) (rh : Option String) (rest : List HEvent)
    (h : base64Decode body = none) :
    handleMessage ser fn (some ⟨some body, rh⟩) = ⟨0, [], none⟩ ∧
    handleLoopRun ser fn (HEvent.recv (some ⟨some body, rh⟩) false :: rest)
      = ⟨some ⟨some body, rh⟩ :: (handleLoopRun ser fn rest).completed,
         (handleLoopRun ser fn rest).dispatched,
         (handleLoopRun ser fn rest).state⟩ := by
  have h1 : handleMessage ser fn (some ⟨some body, rh⟩) = ⟨0, [], none⟩ := by
    simp [handleMessage, h]
  refine ⟨h1, ?_⟩
  simp [handleLoopRun, h1]

/-- C1 witness: at the concrete body "!" (invalid base64), the message is
handled without error and forwarded to the completed channel. -/
theorem c1_witness :
    handleMessage serOk fnOk (some ⟨some "!", some "rh"⟩) = ⟨0, [], none⟩ ∧
    handleLoopRun serOk fnOk [HEvent.recv (some ⟨some "!", some "rh"⟩) false]
      = ⟨[some ⟨some "!", some "rh"⟩], [], RunState.running⟩ := by
  have h := c1_bad_base64_dropped_yet_forwarded serOk fnOk "!" (some "rh") [] (by rfl)
  exact ⟨h.1, h.2.trans (by rfl)⟩

/-- C1 counterexample: the body "!" fails base64 decoding, yet the message
IS forwarded to the `completed` channel (the claim says it never reaches
the acknowledge stage). -/
theorem c1_counterexample :
    base64Decode "!" = none ∧
    (handleLoopRun serOk fnOk [HEvent.recv (some ⟨some "!", some "rh"⟩) false]).completed
      = [some ⟨some "!", some "rh"⟩] ∧
    [some (Msg.mk (some "!") (some "rh"))] ≠ ([] : List (Option Msg)) := by
  exact ⟨rfl, rfl, by simp⟩

/-- C7: a deserialization failure or a handler error makes `handleLoop`
return that non-nil error at once, forwarding nothing and ignoring all
later events; every non-nil `handleMessage` result is of one of those two
shapes, both failure shapes are reachable, and every termination of
`handleLoop` carries a non-nil error that is either the cancellation error
or one of those two shapes. -/
theorem c7_fatal_errors_abort (ser : Serializer E) (fn : Handler E) :
    (∀ m cb rest e, (handleMessage ser fn m).result = some e →
      handleLoopRun ser fn (HEvent.recv m cb :: rest)
        = ⟨[], (handleMessage ser fn m).dispatched, RunState.returned (some e)⟩) ∧
    (∀ m e, (handleMessage ser fn m).result = some e →
      (∃ b, e = GoError.unmarshalFailed b) ∨ ∃ s, e = GoError.handlerFailed s) ∧
    (∀ body rh data msg, base64Decode body = some data → ser data = Except.error msg →
      (handleMessage ser fn (some ⟨some body, rh⟩)).result
        = some (GoError.unmarshalFailed body)) ∧
    (∀ body rh data ev s, base64Decode body = some data → ser data = Except.ok ev →
      fn ev = some s →
      (handleMessage ser fn (some ⟨some body, rh⟩)).result
        = some (GoError.handlerFailed s)) ∧
    (∀ events e, (handleLoopRun ser fn events).state = RunState.returned e →
      ∃ g, e = some g ∧ (g = GoError.contextCanceled ∨
        (∃ b, g = GoError.unmarshalFailed b) ∨ ∃ s, g = GoError.handlerFailed s)) := by
  refine ⟨?_, ?_, ?_, ?_, ?_⟩
  · intro m cb rest e h
    simp [handleLoopRun, h]
  · intro m e h
    exact handleMessage_result_cases ser fn m e h
  · intro body rh data msg hd hs
    simp [handleMessage, hd, hs]
  · intro body rh data ev s hd hs hf
    simp [handleMessage, hd, hs, hf]
  · intro events
    induction events with
    | nil => intro e h; simp [handleLoopRun] at h
    | cons ev rest ih =>
      intro e h
      cases ev with
      | cancel =>
        simp [handleLoopRun] at h
        exact ⟨GoError.contextCanceled, h.symm, Or.inl rfl⟩
      | recv m cb =>
        cases hm : (handleMessage ser fn m).result with
        | some g =>
          simp [handleLoopRun, hm] at h
          exact ⟨g, h.symm, Or.inr (handleMessage_result_cases ser fn m g hm)⟩
        | none =>
          by_cases hcb : cb
          · simp [handleLoopRun, hm, hcb] at h
            exact ⟨GoError.contextCanceled, h.symm, Or.inl rfl⟩
          · simp [handleLoopRun, hm, hcb] at h
            exact ih e h

/-- C7 witness: with a serializer that always fails and the valid base64
body "AAAA", the loop aborts with the unmarshal error and processes no
further message. -/
theorem c7_witness :
    handleLoopRun serBad fnOk
      [HEvent.recv (some ⟨some "AAAA", some "r"⟩) false, HEvent.recv none false]
      = ⟨[], [], RunState.returned (some (GoError.unmarshalFailed "AAAA"))⟩ := by
  have h := (c7_fatal_errors_abort serBad fnOk).1 (some ⟨some "AAAA", some "r"⟩) false
      [HEvent.recv none false] (GoError.unmarshalFailed "AAAA") (by rfl)
  exact h.trans (by rfl)

/-- C10: a nil message or a message with a nil body is treated as
successfully handled: `handleMessage` returns nil without invoking the
serializer or the handler, and `handleLoop` forwards the message to the
`completed` channel and keeps running. -/
theorem c10_nil_message_forwarded (ser : Serializer E) (fn : Handler E)
    (rh : Option String) (rest : List HEvent) :
    handleMessage ser fn none = ⟨0, [], none⟩ ∧
    handleMessage ser fn (some ⟨none, rh⟩) = ⟨0, [], none⟩ ∧
    handleLoopRun ser fn (HEvent.recv none false :: rest)
      = ⟨none :: (handleLoopRun ser fn rest).completed,
         (handleLoopRun ser fn rest).dispatched,
         (handleLoopRun ser fn rest).state⟩ ∧
    handleLoopRun ser fn (HEvent.recv (some ⟨none, rh⟩) false :: rest)
      = ⟨some ⟨none, rh⟩ :: (handleLoopRun ser fn rest).completed,
         (handleLoopRun ser fn rest).dispatched,
         (handleLoopRun ser fn rest).state⟩ := by
  refine ⟨rfl, rfl, ?_, ?_⟩ <;> simp [handleLoopRun, handleMessage]

/-- C8: `receiveLoop` never terminates successfully: any terminated run
returned the cancellation error; a receive error without cancellation
continues the loop unchanged (backoff then retry); cancellation during the
backoff wait, or during message forwarding, exits with the cancellation
error. -/
theorem c8_receive_never_returns_nil :
    (∀ steps, (receiveLoopRun steps).state = RunState.running ∨
      (receiveLoopRun steps).state = RunState.returned (some GoError.contextCanceled)) ∧
    (∀ rest, receiveLoopRun (RStep.err false :: rest) = receiveLoopRun rest) ∧
    (∀ rest, receiveLoopRun (RStep.err true :: rest)
      = ⟨[], RunState.returned (some GoError.contextCanceled)⟩) ∧
    (∀ msgs i rest, receiveLoopRun (RStep.ok msgs (some i) :: rest)
      = ⟨msgs.take i, RunState.returned (some GoError.contextCanceled)⟩) := by
  refine ⟨?_, fun rest => rfl, fun rest => rfl, fun msgs i rest => rfl⟩
  intro steps
  induction steps with
  | nil => exact Or.inl rfl
  | cons s rest ih =>
    cases s with
    | ok msgs cancelAt =>
      cases cancelAt with
      | none => simpa [receiveLoopRun] using ih
      | some i => exact Or.inr rfl
    | err c =>
      cases c with
      | false => simpa [receiveLoopRun] using ih
      | true => exact Or.inr rfl

/-- C2 (amended): when every stage exits with the cancellation error
`ctx.Err()` (= `context.Canceled`, a non-nil error), `Close` returns that
cancellation error rather than nil: `errgroup.Wait` does not suppress
cancellation outcomes. -/
theorem c2_close_returns_cancellation_error (results : List (Option GoError))
    (h1 : results ≠ [])
    (h2 : ∀ r ∈ results, r = some GoError.contextCanceled) :
    subscriptionClose results = some GoError.contextCanceled := by
  cases results with
  | nil => exact absurd rfl h1
  | cons a rest =>
    have ha := h2 a (List.mem_cons_self a rest)
    simp [subscriptionClose, errgroupWait, List.findSome?, ha]

/-- C2 witness: three stage results, all the cancellation error, make
`Close` return the cancellation error. -/
theorem c2_witness :
    subscriptionClose [some GoError.contextCanceled, some GoError.contextCanceled,
      some GoError.contextCanceled] = some GoError.contextCanceled :=
  c2_close_returns_cancellation_error _ (by simp) (by simp)

/-- C2 counterexample: each of the three stage embeddings, run to a purely
cancellation-driven exit, returns `ctx.Err()`; `Close` over those results
is non-nil, contradicting the claim that it returns nil. -/
theorem c2_counterexample :
    stageReturn (receiveLoopRun [RStep.err true]).state = some GoError.contextCanceled ∧
    stageReturn (handleLoopRun serOk fnOk [HEvent.cancel]).state
      = some GoError.contextCanceled ∧
    stageReturn (deleteLoopRun [] [] [DEvent.cancel]).state = some GoError.contextCanceled ∧
    subscriptionClose [stageReturn (receiveLoopRun [RStep.err true]).state,
      stageReturn (handleLoopRun serOk fnOk [HEvent.cancel]).state,
      stageReturn (deleteLoopRun [] [] [DEvent.cancel]).state] ≠ none := by
  refine ⟨rfl, rfl, rfl, by decide⟩

lemma isEmpty_false_of_ne {α : Type} (l : List α) (h : l ≠ []) : l.isEmpty = false := by
  cases l with
  | nil => exact absurd rfl h
  | cons a t => rfl

/-- The retry loop reaches the batch reset exactly when it does not exit
by cancellation during a pause. -/
lemma flushGo_cleared (entries : List Entry) :
    ∀ fuel env, (flushGo entries fuel env).2.1 = !cancelsWithin fuel env := by
  intro fuel
  induction fuel with
  | zero => intro env; rfl
  | succ n ih =>
    intro env
    cases env with
    | nil => rfl
    | cons o env' =>
      cases o with
      | success => rfl
      | failCancel => rfl
      | failRetry => simpa [flushGo, cancelsWithin] using ih env'

/-- The retry loop only consumes attempt outcomes. -/
lemma flushGo_env_mem (entries : List Entry) :
    ∀ fuel env o, o ∈ (flushGo entries fuel env).2.2 → o ∈ env := by
  intro fuel
  induction fuel with
  | zero => intro env o ho; exact ho
  | succ n ih =>
    intro env o ho
    cases env with
    | nil => simp [flushGo] at ho
    | cons p env' =>
      cases p with
      | success => simp [flushGo] at ho; exact List.mem_cons_of_mem _ ho
      | failCancel => simp [flushGo] at ho; exact List.mem_cons_of_mem _ ho
      | failRetry =>
        simp only [flushGo] at ho
        exact List.mem_cons_of_mem _ (ih env' o ho)

/-- With at least one attempt allowed, the retry loop always makes at
least one delete API call. -/
lemma flushGo_calls_ne_nil (entries : List Entry) (fuel : Nat) (env : List FlushOutcome)
    (hf : fuel ≠ 0) : (flushGo entries fuel env).1 ≠ [] := by
  cases fuel with
  | zero => exact absurd rfl hf
  | succ n =>
    cases env with
    | nil => simp [flushGo]
    | cons o env' => cases o <;> simp [flushGo]

/-- If no attempt outcome is a cancellation during a pause, the retry
loop never exits early. -/
lemma cancelsWithin_eq_false :
    ∀ fuel env, (∀ o ∈ env, o ≠ FlushOutcome.failCancel) → cancelsWithin fuel env = false := by
  intro fuel
  induction fuel with
  | zero => intro env hv; rfl
  | succ n ih =>
    intro env hv
    cases env with
    | nil => rfl
    | cons o env' =>
      cases o with
      | success => rfl
      | failCancel => exact absurd rfl (hv _ (List.mem_cons_self _ _))
      | failRetry =>
        simpa [cancelsWithin] using ih env' fun o ho => hv o (List.mem_cons_of_mem _ ho)

/-- Without cancellation during a pause, every flush attempt sequence
leaves the batch empty. -/
lemma deleteMessages_entries_noCancel (entries : List Entry) (env : List FlushOutcome)
    (hv : ∀ o ∈ env, o ≠ FlushOutcome.failCancel) :
    (deleteMessages entries env).entries = [] := by
  by_cases h : entries = []
  · simp [deleteMessages, h]
  · simp [deleteMessages, isEmpty_false_of_ne entries h, flushGo_cleared,
      cancelsWithin_eq_false 3 env hv]

/-- `deleteMessages` only consumes attempt outcomes. -/
lemma deleteMessages_env_mem (entries : List Entry) (env : List FlushOutcome) :
    ∀ o ∈ (deleteMessages entries env).env, o ∈ env := by
  by_cases h : entries = []
  · simp [deleteMessages, h]
  · intro o ho
    simp only [deleteMessages, isEmpty_false_of_ne entries h] at ho
    exact flushGo_env_mem entries 3 env o ho

/-- C4 (amended): after a flush on a non-empty batch the batch is cleared
when the attempt sequence ends by success or exhausted retries, but when
cancellation fires during a retry pause the closure returns early and the
batch is left intact. -/
theorem c4_flush_clears_unless_pause_cancelled (entries : List Entry)
    (env : List FlushOutcome) (h : entries ≠ []) :
    (deleteMessages entries env).entries
      = (if cancelsWithin 3 env then entries else []) := by
  simp only [deleteMessages, isEmpty_false_of_ne entries h, Bool.if_false_left,
    flushGo_cleared]
  cases hc : cancelsWithin 3 env <;> simp

/-- C4 witness: a singleton batch flushed against a failing API with
cancellation during the first pause is left intact. -/
theorem c4_witness :
    (deleteMessages [⟨0, some "a"⟩] [FlushOutcome.failCancel]).entries
      = (if cancelsWithin 3 [FlushOutcome.failCancel] then [⟨0, some "a"⟩] else []) :=
  c4_flush_clears_unless_pause_cancelled [⟨0, some "a"⟩] [FlushOutcome.failCancel] (by simp)

/-- C4 counterexample: flushing a non-empty batch with cancellation firing
during the retry pause leaves the pending batch non-empty, contradicting
the claim that it is cleared in all three terminations. -/
theorem c4_counterexample :
    (deleteMessages [⟨0, some "a"⟩] [FlushOutcome.failCancel]).entries
      = [⟨0, some "a"⟩] ∧
    ([⟨0, some "a"⟩] : List Entry) ≠ [] := by
  exact ⟨by decide, by simp⟩

/-- C6: when the delete call fails 3 consecutive times with no
cancellation during the pauses, the flush makes exactly 3 API calls,
drops the batch, returns no error, and the loop keeps accepting new
completed messages (a fresh entry with id 0 is appended afterwards). -/
theorem c6_three_failures_drop_batch (entries : List Entry) (rh : Option String)
    (env' : List FlushOutcome) (h : entries ≠ []) :
    deleteLoopRun entries
      (FlushOutcome.failRetry :: FlushOutcome.failRetry :: FlushOutcome.failRetry :: env')
      [DEvent.tick, DEvent.completed rh]
      = ⟨[entries, entries, entries], [⟨0, rh⟩], env', RunState.running⟩ := by
  simp [deleteLoopRun, deleteStep, deleteMessages, isEmpty_false_of_ne entries h, flushGo]

/-- C6 witness: concrete singleton batch, three failures, then a new
completed message. -/
theorem c6_witness :
    deleteLoopRun [⟨0, some "a"⟩]
      (FlushOutcome.failRetry :: FlushOutcome.failRetry :: FlushOutcome.failRetry :: [])
      [DEvent.tick, DEvent.completed (some "b")]
      = ⟨[[⟨0, some "a"⟩], [⟨0, some "a"⟩], [⟨0, some "a"⟩]], [⟨0, some "b"⟩], [],
         RunState.running⟩ :=
  c6_three_failures_drop_batch [⟨0, some "a"⟩] (some "b") [] (by simp)

/-- Without cancellation, one `deleteLoop` iteration on a tick or a
completed message keeps the batch at 9 entries or fewer, only consumes
attempt outcomes, and does not stop the loop. -/
lemma deleteStep_inv (entries : List Entry) (env : List FlushOutcome) (e : DEvent)
    (he : e ≠ DEvent.cancel) (hv : ∀ o ∈ env, o ≠ FlushOutcome.failCancel)
    (hlen : entries.length ≤ 9) :
    (deleteStep entries env e).entries.length ≤ 9 ∧
    (∀ o ∈ (deleteStep entries env e).env, o ∈ env) ∧
    (deleteStep entries env e).stop = false := by
  cases e with
  | cancel => exact absurd rfl he
  | tick =>
    have h0 : (deleteMessages entries env).entries = [] :=
      deleteMessages_entries_noCancel entries env hv
    simp only [deleteStep]
    rw [if_neg (by rw [h0]; simp)]
    exact ⟨by rw [h0]; simp, deleteMessages_env_mem entries env, rfl⟩
  | completed rh =>
    by_cases h10 : (entries ++ [(⟨entries.length, rh⟩ : Entry)]).length = 10
    · simp only [deleteStep]
      rw [if_pos h10]
      refine ⟨?_, deleteMessages_env_mem _ env, rfl⟩
      rw [deleteMessages_entries_noCancel _ env hv]
      simp
    · simp only [deleteStep]
      rw [if_neg h10]
      refine ⟨?_, fun o ho => ho, rfl⟩
      simp only [List.length_append, List.length_singleton] at h10 ⊢
      omega

/-- Without cancellation events or cancellation during pauses, every
reachable `deleteLoop` batch has at most 9 entries and the loop keeps
running. -/
lemma deleteLoopRun_inv (events : List DEvent) :
    ∀ entries env, (∀ e ∈ events, e ≠ DEvent.cancel) →
    (∀ o ∈ env, o ≠ FlushOutcome.failCancel) → entries.length ≤ 9 →
    (deleteLoopRun entries env events).entries.length ≤ 9 ∧
    (deleteLoopRun entries env events).state = RunState.running := by
  induction events with
  | nil => intro entries env he hv hlen; exact ⟨hlen, rfl⟩
  | cons e rest ih =>
    intro entries env he hv hlen
    have he1 : e ≠ DEvent.cancel := he e (List.mem_cons_self _ _)
    obtain ⟨hs1, hs2, hs3⟩ := deleteStep_inv entries env e he1 hv hlen
    have hv' : ∀ o ∈ (deleteStep entries env e).env, o ≠ FlushOutcome.failCancel :=
      fun o ho => hv o (hs2 o ho)
    have he' : ∀ x ∈ rest, x ≠ DEvent.cancel := fun x hx => he x (List.mem_cons_of_mem _ hx)
    obtain ⟨ih1, ih2⟩ := ih (deleteStep entries env e).entries (deleteStep entries env e).env
      he' hv' hs1
    simp only [deleteLoopRun, hs3, if_false, Bool.false_eq_true]
    exact ⟨ih1, ih2⟩

/-- C5: under any sequence of completed-message arrivals and ticker events
(no cancellation), the pending batch never exceeds 10 entries; and
whenever an arrival brings the batch to exactly 10 entries, a flush is
issued immediately (at least one delete call, batch emptied) without
waiting for the timer. -/
theorem c5_batch_bounded_and_flushed_at_ten (events : List DEvent)
    (env : List FlushOutcome)
    (he : ∀ e ∈ events, e ≠ DEvent.cancel)
    (hv : ∀ o ∈ env, o ≠ FlushOutcome.failCancel) :
    (deleteLoopRun [] env events).entries.length ≤ 10 ∧
    (∀ entries env2 rh, entries.length = 9 →
      (∀ o ∈ env2, o ≠ FlushOutcome.failCancel) →
      (deleteStep entries env2 (DEvent.completed rh)).calls ≠ [] ∧
      (deleteStep entries env2 (DEvent.completed rh)).entries = []) := by
  constructor
  · have h := (deleteLoopRun_inv events [] env he hv (by simp)).1
    omega
  · intro entries env2 rh h9 hv2
    have h10 : (entries ++ [(⟨entries.length, rh⟩ : Entry)]).length = 10 := by
      simp [h9]
    have hne : entries ++ [(⟨entries.length, rh⟩ : Entry)] ≠ [] := by simp
    constructor
    · simp only [deleteStep]
      rw [if_pos h10]
      show (deleteMessages _ env2).calls ≠ []
      simp only [deleteMessages, isEmpty_false_of_ne _ hne, Bool.false_eq_true, if_false]
      exact flushGo_calls_ne_nil _ 3 env2 (by simp)
    · simp only [deleteStep]
      rw [if_pos h10]
      exact deleteMessages_entries_noCancel _ env2 hv2

/-- C5 witness: a single completed arrival from an empty batch stays
within the bound, and a batch of 9 entries plus one arrival flushes
immediately to empty. -/
theorem c5_witness :
    (deleteLoopRun [] [] [DEvent.completed none]).entries.length ≤ 10 ∧
    (deleteStep (mkEntriesFrom 0 (List.replicate 9 none)) [] (DEvent.completed none)).calls
      ≠ [] := by
  have h := c5_batch_bounded_and_flushed_at_ten [DEvent.completed none] []
    (by simp) (by simp)
  refine ⟨h.1, (h.2 (mkEntriesFrom 0 (List.replicate 9 none)) [] none (by decide) (by simp)).1⟩

lemma mkEntriesFrom_length (rhs : List (Option String)) :
    ∀ n, (mkEntriesFrom n rhs).length = rhs.length := by
  induction rhs with
  | nil => intro n; rfl
  | cons rh rest ih => intro n; simp [mkEntriesFrom, ih]

lemma mkEntriesFrom_get (rhs : List (Option String)) :
    ∀ n i (h : i < (mkEntriesFrom n rhs).length),
      ((mkEntriesFrom n rhs).get ⟨i, h⟩).id = n + i := by
  induction rhs with
  | nil => intro n i h; simp [mkEntriesFrom] at h
  | cons rh rest ih =>
    intro n i h
    cases i with
    | zero => simp [mkEntriesFrom]
    | succ j =>
      have h2 : j < (mkEntriesFrom (n + 1) rest).length := by
        simpa [mkEntriesFrom] using h
      have := ih (n + 1) j h2
      simpa [mkEntriesFrom, Nat.add_assoc, Nat.add_comm 1 j] using this

lemma mkEntriesFrom_cons_append (entries : List Entry) (rh : Option String)
    (rest : List (Option String)) :
    (entries ++ [(⟨entries.length, rh⟩ : Entry)]) ++ mkEntriesFrom (entries.length + 1) rest
      = entries ++ mkEntriesFrom entries.length (rh :: rest) := by
  simp [mkEntriesFrom, List.append_assoc]

/-- Unfolding one non-stopping iteration of `deleteLoopRun`. -/
lemma deleteLoopRun_cons (entries : List Entry) (env : List FlushOutcome) (e : DEvent)
    (rest : List DEvent) (h : (deleteStep entries env e).stop = false) :
    deleteLoopRun entries env (e :: rest)
      = ⟨(deleteStep entries env e).calls
          ++ (deleteLoopRun (deleteStep entries env e).entries
              (deleteStep entries env e).env rest).calls,
         (deleteLoopRun (deleteStep entries env e).entries
            (deleteStep entries env e).env rest).entries,
         (deleteLoopRun (deleteStep entries env e).entries
            (deleteStep entries env e).env rest).env,
         (deleteLoopRun (deleteStep entries env e).entries
            (deleteStep entries env e).env rest).state⟩ := by
  simp only [deleteLoopRun, h, Bool.false_eq_true, if_false]

/-- A completed message that does not fill the batch is only appended. -/
lemma deleteStep_completed_small (entries : List Entry) (env : List FlushOutcome)
    (rh : Option String)
    (h : ¬(entries ++ [(⟨entries.length, rh⟩ : Entry)]).length = 10) :
    deleteStep entries env (DEvent.completed rh)
      = ⟨[], entries ++ [⟨entries.length, rh⟩], env, false⟩ := by
  simp only [deleteStep]
  rw [if_neg h]

/-- A completed message that fills the batch to 10 triggers an immediate
flush. -/
lemma deleteStep_completed_full (entries : List Entry) (env : List FlushOutcome)
    (rh : Option String)
    (h : (entries ++ [(⟨entries.length, rh⟩ : Entry)]).length = 10) :
    deleteStep entries env (DEvent.completed rh)
      = ⟨(deleteMessages (entries ++ [⟨entries.length, rh⟩]) env).calls,
         (deleteMessages (entries ++ [⟨entries.length, rh⟩]) env).entries,
         (deleteMessages (entries ++ [⟨entries.length, rh⟩]) env).env, false⟩ := by
  simp only [deleteStep]
  rw [if_pos h]

/-- Accumulating up to 9 completed messages issues no delete call, then a
tick flushes the whole batch in one successful call. -/
lemma run_short_then_tick (rhs : List (Option String)) :
    ∀ entries : List Entry, entries.length + rhs.length ≤ 9 →
    1 ≤ entries.length + rhs.length →
    deleteLoopRun entries [FlushOutcome.success] (rhs.map DEvent.completed ++ [DEvent.tick])
      = ⟨[entries ++ mkEntriesFrom entries.length rhs], [], [], RunState.running⟩ := by
  induction rhs with
  | nil =>
    intro entries hle hge
    have hne : entries ≠ [] := by
      intro h
      rw [h] at hge
      simp at hge
    simp [deleteLoopRun, deleteStep, deleteMessages, isEmpty_false_of_ne entries hne,
      flushGo, mkEntriesFrom]
  | cons rh rest ih =>
    intro entries hle hge
    have hA : entries.length + (rest.length + 1) ≤ 9 := by simpa using hle
    have hlen2 : (entries ++ [(⟨entries.length, rh⟩ : Entry)]).length
        = entries.length + 1 := by simp
    have h10 : ¬(entries ++ [(⟨entries.length, rh⟩ : Entry)]).length = 10 := by
      rw [hlen2]; omega
    have ihr := ih (entries ++ [(⟨entries.length, rh⟩ : Entry)])
      (by rw [hlen2]; omega) (by rw [hlen2]; omega)
    rw [hlen2] at ihr
    have hstep := deleteStep_completed_small entries [FlushOutcome.success] rh h10
    have hstop : (deleteStep entries [FlushOutcome.success] (DEvent.completed rh)).stop
        = false := by rw [hstep]
    rw [List.map_cons, List.cons_append, deleteLoopRun_cons _ _ _ _ hstop, hstep]
    rw [← mkEntriesFrom_cons_append]
    simp [ihr]

/-- Accumulating completed messages up to a batch of exactly 10 issues
one immediate successful flush of the whole batch, and a later tick on the
emptied batch is a no-op. -/
lemma run_full_then_tick (rhs : List (Option String)) :
    ∀ (entries : List Entry) (env2 : List FlushOutcome), rhs ≠ [] →
    entries.length + rhs.length = 10 →
    deleteLoopRun entries (FlushOutcome.success :: env2)
        (rhs.map DEvent.completed ++ [DEvent.tick])
      = ⟨[entries ++ mkEntriesFrom entries.length rhs], [], env2, RunState.running⟩ := by
  induction rhs with
  | nil => intro entries env2 hne hlen; exact absurd rfl hne
  | cons rh rest ih =>
    intro entries env2 hne hlen
    cases rest with
    | nil =>
      have h9 : entries.length = 9 := by
        simp only [List.length_cons, List.length_nil] at hlen
        omega
      have h10 : (entries ++ [(⟨entries.length, rh⟩ : Entry)]).length = 10 := by
        simp [h9]
      have hne2 : entries ++ [(⟨entries.length, rh⟩ : Entry)] ≠ [] := by simp
      simp only [List.map_cons, List.map_nil, List.nil_append, List.cons_append,
        deleteLoopRun, deleteStep]
      rw [if_pos h10]
      simp [deleteMessages, isEmpty_false_of_ne _ hne2, flushGo, mkEntriesFrom]
    | cons rh2 rest2 =>
      have hB : entries.length + (rest2.length + 1 + 1) = 10 := by simpa using hlen
      have hlen2 : (entries ++ [(⟨entries.length, rh⟩ : Entry)]).length
          = entries.length + 1 := by simp
      have hlt : ¬(entries ++ [(⟨entries.length, rh⟩ : Entry)]).length = 10 := by
        rw [hlen2]; omega
      have ihr := ih (entries ++ [(⟨entries.length, rh⟩ : Entry)]) env2 (by simp)
        (by rw [hlen2]; simp only [List.length_cons]; omega)
      rw [hlen2] at ihr
      have hstep := deleteStep_completed_small entries (FlushOutcome.success :: env2) rh hlt
      have hstop : (deleteStep entries (FlushOutcome.success :: env2)
          (DEvent.completed rh)).stop = false := by rw [hstep]
      simp only [List.map_cons, List.cons_append] at ihr
      rw [List.map_cons, List.cons_append, deleteLoopRun_cons _ _ _ _ hstop, hstep]
      rw [← mkEntriesFrom_cons_append]
      simp [ihr]

/-- C3: for any 1 to 10 completed messages delivered within one flush
interval, the next flush issues exactly one successful delete-batch call
containing exactly those messages, with entry ids equal to each entry's
0-based position, and clears the batch. -/
theorem c3_single_call_sequential_ids (rhs : List (Option String))
    (h1 : 0 < rhs.length) (h2 : rhs.length ≤ 10) :
    deleteLoopRun [] [FlushOutcome.success] (rhs.map DEvent.completed ++ [DEvent.tick])
      = ⟨[mkEntriesFrom 0 rhs], [], [], RunState.running⟩ ∧
    (mkEntriesFrom 0 rhs).length = rhs.length ∧
    ∀ i (h : i < (mkEntriesFrom 0 rhs).length), ((mkEntriesFrom 0 rhs).get ⟨i, h⟩).id = i := by
  refine ⟨?_, mkEntriesFrom_length rhs 0, fun i h => by
    simpa using mkEntriesFrom_get rhs 0 i h⟩
  by_cases h9 : rhs.length ≤ 9
  · have := run_short_then_tick rhs [] (by simpa using h9) (by simpa using h1)
    simpa using this
  · have h10 : rhs.length = 10 := by omega
    have hne : rhs ≠ [] := by
      intro h
      rw [h] at h1
      simp at h1
    have := run_full_then_tick rhs [] [] hne (by simpa using h10)
    simpa using this

/-- C3 witness: three completed messages then a tick produce one call with
entries in position order 0, 1, 2. -/
theorem c3_witness :
    deleteLoopRun [] [FlushOutcome.success]
      ([some "a", some "b", some "c"].map DEvent.completed ++ [DEvent.tick])
      = ⟨[mkEntriesFrom 0 [some "a", some "b", some "c"]], [], [], RunState.running⟩ :=
  (c3_single_call_sequential_ids [some "a", some "b", some "c"] (by simp) (by simp)).1

lemma specLineEvent_some (ser : Serializer E) (line : String) (e : E)
    (h : specLineEvent ser line = some e) :
    ∃ data, base64Decode line = some data ∧ ser data = Except.ok e := by
  unfold specLineEvent at h
  cases hd : base64Decode line with
  | none => rw [hd] at h; simp at h
  | some data =>
    rw [hd] at h
    simp only [Option.some_bind] at h
    cases hs : ser data with
    | error s => rw [hs] at h; simp [Except.toOption] at h
    | ok ev =>
      rw [hs] at h
      simp [Except.toOption] at h
      exact ⟨data, rfl, by rw [← h]; exact hs⟩

/-- When every handler call succeeds and every line of an object decodes,
the scanner dispatches exactly the decoded events in line order. -/
lemma scanLines_mapM (ser : Serializer E) (fn : Handler E)
    (hfn : ∀ ev, fn ev = none) (lines : List String) :
    ∀ (n : Nat) (evs : List E), lines.mapM (specLineEvent ser) = some evs →
    scanLines ser fn n lines = (evs, none) := by
  induction lines with
  | nil =>
    intro n evs h
    simp only [List.mapM_nil, pure, Option.some.injEq] at h
    simp [scanLines, ← h]
  | cons line rest ih =>
    intro n evs h
    rw [List.mapM_cons] at h
    cases hl : specLineEvent ser line with
    | none => rw [hl] at h; simp at h
    | some e =>
      rw [hl] at h
      cases hr : rest.mapM (specLineEvent ser) with
      | none => rw [hr] at h; simp at h
      | some es =>
        rw [hr] at h
        simp at h
        obtain ⟨data, hd, hs⟩ := specLineEvent_some ser line e hl
        have ihr := ih (n + 1) es hr
        simp only [scanLines, hd, hs, hfn e, ihr, ← h]

lemma specObjectEvents_some (ser : Serializer E) (objects : List (String × List String))
    (key : String) (evs : List E) (h : specObjectEvents ser objects key = some evs) :
    ∃ lines, lookupLines objects key = some lines ∧
      lines.mapM (specLineEvent ser) = some evs := by
  unfold specObjectEvents at h
  cases hk : lookupLines objects key with
  | none => rw [hk] at h; simp at h
  | some lines =>
    rw [hk] at h
    simp only [Option.some_bind] at h
    exact ⟨lines, rfl, h⟩

/-- When every object of a page resolves and decodes and the handler keeps
succeeding, the page loop dispatches the concatenation of the per-object
event lists, in object order. -/
lemma replayKeys_mapM (ser : Serializer E) (fn : Handler E)
    (objects : List (String × List String)) (hfn : ∀ ev, fn ev = none)
    (keys : List String) :
    ∀ evss : List (List E), keys.mapM (specObjectEvents ser objects) = some evss →
    replayKeys ser fn objects keys = (evss.flatten, none) := by
  induction keys with
  | nil =>
    intro evss h
    simp only [List.mapM_nil, pure, Option.some.injEq] at h
    simp [replayKeys, ← h]
  | cons k rest ih =>
    intro evss h
    rw [List.mapM_cons] at h
    cases hk : specObjectEvents ser objects k with
    | none => rw [hk] at h; simp at h
    | some evs1 =>
      rw [hk] at h
      cases hr : rest.mapM (specObjectEvents ser objects) with
      | none => rw [hr] at h; simp at h
      | some evss2 =>
        rw [hr] at h
        simp at h
        obtain ⟨lines, hl, hm⟩ := specObjectEvents_some ser objects k evs1 hk
        have hobj : handleObject ser fn objects k = (evs1, none) := by
          simp only [handleObject, hl]
          exact scanLines_mapM ser fn hfn lines 1 evs1 hm
        have ihr := ih evss2 hr
        simp only [replayKeys, hobj, ihr, ← h]
        simp

/-- When every listing, read, decode and handler call succeeds, `Replay`
dispatches exactly the spec-side event sequence and returns nil. -/
lemma replay_refines_spec (ser : Serializer E) (fn : Handler E)
    (objects : List (String × List String)) (hfn : ∀ ev, fn ev = none)
    (pages : List Page) :
    ∀ evs : List E, specReplayEvents ser objects pages = some evs →
    Replay ser fn objects pages = (evs, none) := by
  induction pages with
  | nil =>
    intro evs h
    simp only [specReplayEvents, Option.some.injEq] at h
    simp [Replay, ← h]
  | cons p rest ih =>
    intro evs h
    cases p with
    | err => simp [specReplayEvents] at h
    | ok keys more =>
      simp only [specReplayEvents] at h
      cases hm : keys.mapM (specObjectEvents ser objects) with
      | none => rw [hm] at h; simp at h
      | some evss =>
        rw [hm] at h
        simp only [Option.some_bind] at h
        have hkeys := replayKeys_mapM ser fn objects hfn keys evss hm
        cases hmore : more with
        | false =>
          rw [hmore] at h
          simp at h
          simp only [Replay, hkeys, ← h]
          simp
        | true =>
          rw [hmore] at h
          simp only [if_true] at h
          cases hr : specReplayEvents ser objects rest with
          | none => rw [hr] at h; simp at h
          | some evs2 =>
            rw [hr] at h
            simp at h
            have ihr := ih evs2 hr
            simp only [Replay, hkeys, ihr, ← h]
            simp

/-- C9: `Replay` dispatches every decoded event sequentially in
object-list order then line order and returns nil when everything
succeeds; a listing failure, an object read failure, a base64 failure, a
deserialization failure or a handler failure each abort immediately with a
non-nil error, dispatching nothing further. -/
theorem c9_replay_order_and_abort (ser : Serializer E) (fn : Handler E)
    (objects : List (String × List String)) :
    (∀ pages evs, (∀ ev, fn ev = none) →
      specReplayEvents ser objects pages = some evs →
      Replay ser fn objects pages = (evs, none)) ∧
    (∀ rest, Replay ser fn objects (Page.err :: rest) = ([], some ReplayErr.listFailed)) ∧
    (∀ key keys more rest, lookupLines objects key = none →
      Replay ser fn objects (Page.ok (key :: keys) more :: rest)
        = ([], some (ReplayErr.objFailed key (ReplayErr.getFailed key)))) ∧
    (∀ n line rest2, base64Decode line = none →
      scanLines ser fn n (line :: rest2) = ([], some (ReplayErr.b64Failed n))) ∧
    (∀ n line data msg rest2, base64Decode line = some data →
      ser data = Except.error msg →
      scanLines ser fn n (line :: rest2) = ([], some (ReplayErr.unmarshalFailed msg))) ∧
    (∀ n line data ev s rest2, base64Decode line = some data → ser data = Except.ok ev →
      fn ev = some s →
      scanLines ser fn n (line :: rest2) = ([ev], some (ReplayErr.handlerFailed s))) := by
  refine ⟨fun pages evs hfn h => replay_refines_spec ser fn objects hfn pages evs h,
    fun rest => rfl, ?_, ?_, ?_, ?_⟩
  · intro key keys more rest h
    simp [Replay, replayKeys, handleObject, h]
  · intro n line rest2 h
    simp [scanLines, h]
  · intro n line data msg rest2 hd hs
    simp [scanLines, hd, hs]
  · intro n line data ev s rest2 hd hs hf
    simp [scanLines, hd, hs, hf]

/-- C9 witness: two objects of two lines each dispatch all four decoded
events in object-list then line order and return nil. -/
theorem c9_witness :
    Replay serId fnOkL [("k1", ["AAAA", "AAAB"]), ("k2", ["AAAC", "AAAD"])]
      [Page.ok ["k1", "k2"] false]
      = ([[0, 0, 0], [0, 0, 1], [0, 0, 2], [0, 0, 3]], none) :=
  (c9_replay_order_and_abort serId fnOkL
    [("k1", ["AAAA", "AAAB"]), ("k2", ["AAAC", "AAAD"])]).1
    [Page.ok ["k1", "k2"] false] [[0, 0, 0], [0, 0, 1], [0, 0, 2], [0, 0, 3]]
    (fun ev => rfl) (by decide)

end ESAws
